import Mathlib

/-!
Shallow embedding of the task store and analytics layer of `src/src/task.rs`.

Modelling conventions:
- `chrono::DateTime<Utc>` timestamps are integers counting nanoseconds since
  the epoch (`chrono` stores nanosecond precision); `Duration::num_seconds`
  truncates toward zero, embedded as `Int.tdiv`.
- `f64` arithmetic is embedded as exact rational arithmetic over `ℚ`.
- `HashMap<u32, Task>` is embedded as an association list `List (Nat × Task)`
  with `insert` replacing an existing key; iteration order is the list order
  (the analytics functions are order-insensitive in the properties proved).
- The ambient clock `Utc::now()` is passed as an explicit `now : Int`
  parameter to every operation that reads it.
- `u32` arithmetic on the id counter is modelled on `Nat` with an explicit
  modulus `U32 = 2 ^ 32` at the one place it is incremented.

Everything lives in namespace `TaskRs` because Lean core already has a `Task`.
-/

namespace TaskRs

/-- Nanoseconds in one second. -/
def nsPerSec : Int := 1000000000

/-- Nanoseconds in one day (`chrono::Duration::days(1)`; UTC days are exactly 86400 s). -/
def nsPerDay : Int := 86400 * nsPerSec

/-- The modulus of the `u32` type of task ids and of the `next_id` counter. -/
def U32 : Nat := 4294967296

/-- `Duration::num_seconds` of `later.signed_duration_since(earlier)`:
whole seconds, truncated toward zero. -/
def numSecondsSince (later earlier : Int) : Int :=
  Int.tdiv (later - earlier) nsPerSec

/-- `date.date_naive().and_hms_opt(0, 0, 0)` back in UTC: floor to the UTC day.
(`Int` division is Euclidean division; for the positive divisor `nsPerDay`
it is exactly the floor, matching `date_naive`.) -/
def startOfDay (t : Int) : Int :=
  (t / nsPerDay) * nsPerDay

/-- `date.date_naive().and_hms_opt(23, 59, 59)` back in UTC: 23:59:59.000000000 of the day. -/
def endOfDay (t : Int) : Int :=
  startOfDay t + 86399 * nsPerSec

/-- `Task` from `src/src/task.rs`. -/
structure Task where
  id : Nat
  title : String
  description : String
  completed : Bool
  created_at : Int
  completed_at : Option Int
deriving DecidableEq

/-- `Task::new`: fresh task, not completed, created "now". -/
def Task.new (id : Nat) (title description : String) (now : Int) : Task :=
  { id := id, title := title, description := description,
    completed := false, created_at := now, completed_at := none }

/-- `Task::toggle_completed`: flip `completed`; stamp `completed_at = now` when
turning on, clear it when turning off. -/
def Task.toggle_completed (t : Task) (now : Int) : Task :=
  let c := !t.completed
  { t with completed := c, completed_at := if c then some now else none }

/-- `TaskManager` from `src/src/task.rs`: id-keyed map of tasks plus the id counter. -/
structure TaskManager where
  tasks : List (Nat × Task)
  next_id : Nat
deriving DecidableEq

/-- `TaskManager::new`: empty map, counter at 1. -/
def TaskManager.new : TaskManager :=
  { tasks := [], next_id := 1 }

/-- `HashMap::get` on the association list: the value at the first binding of
the key (keys are unique in every reachable store). -/
def mapLookup : List (Nat × Task) → Nat → Option Task
  | [], _ => none
  | p :: rest, k => if p.1 = k then some p.2 else mapLookup rest k

/-- `HashMap::insert` on the association list: replace the value at an existing
key, otherwise add the binding. -/
def mapInsert (m : List (Nat × Task)) (k : Nat) (v : Task) : List (Nat × Task) :=
  if (mapLookup m k).isSome then
    m.map (fun p => if p.1 = k then (k, v) else p)
  else
    m ++ [(k, v)]

/-- `TaskManager::add_task`: allocate `next_id`, insert a fresh task under it,
increment the counter (u32 arithmetic), return the id. -/
def TaskManager.add_task (tm : TaskManager) (title description : String) (now : Int) :
    Nat × TaskManager :=
  let id := tm.next_id
  let task := Task.new id title description now
  (id, { tasks := mapInsert tm.tasks id task, next_id := (tm.next_id + 1) % U32 })

/-- `TaskManager::get_task`. -/
def TaskManager.get_task (tm : TaskManager) (id : Nat) : Option Task :=
  mapLookup tm.tasks id

/-- `TaskManager::get_all_tasks` (values snapshot). -/
def TaskManager.get_all_tasks (tm : TaskManager) : List Task :=
  tm.tasks.map (fun p => p.2)

/-- `TaskManager::toggle_task`: toggle in place when the id exists, report existence. -/
def TaskManager.toggle_task (tm : TaskManager) (id : Nat) (now : Int) :
    Bool × TaskManager :=
  match mapLookup tm.tasks id with
  | some _ =>
      let updated := tm.tasks.map (fun p =>
        if p.1 = id then (p.1, p.2.toggle_completed now) else p)
      (true, { tm with tasks := updated })
  | none => (false, tm)

/-- `TaskManager::remove_task`: delete the binding when present, report existence. -/
def TaskManager.remove_task (tm : TaskManager) (id : Nat) : Bool × TaskManager :=
  if (mapLookup tm.tasks id).isSome then
    (true, { tm with tasks := tm.tasks.filter (fun p => decide (p.1 ≠ id)) })
  else
    (false, tm)

/-- `TaskManager::get_completed_count`. -/
def TaskManager.get_completed_count (tm : TaskManager) : Nat :=
  tm.tasks.countP (fun p => p.2.completed)

/-- `TaskManager::get_total_count`. -/
def TaskManager.get_total_count (tm : TaskManager) : Nat :=
  tm.tasks.length

/-- `TaskManager::get_average_completion_time_hours`: per completed task,
`num_seconds(completed_at - created_at) / 3600.0`; `None` when the filtered
list is empty, otherwise the mean. -/
def TaskManager.get_average_completion_time_hours (tm : TaskManager) : Option ℚ :=
  let completed_tasks : List ℚ := tm.tasks.filterMap (fun p =>
    p.2.completed_at.map (fun c => ((numSecondsSince c p.2.created_at : ℚ)) / 3600))
  if completed_tasks.isEmpty then none
  else some (completed_tasks.sum / (completed_tasks.length : ℚ))

/-- The filter closure of `get_completed_tasks_time_series`:
`completed_at` falls within `[sod, eod]`. -/
def Task.completedWithin (t : Task) (sod eod : Int) : Bool :=
  match t.completed_at with
  | some c => decide (sod ≤ c) && decide (c ≤ eod)
  | none => false

/-- The filter closure of `get_incomplete_tasks_time_series`: created by `eod`
and (never completed, or completed strictly after `eod`). -/
def Task.openAt (t : Task) (eod : Int) : Bool :=
  decide (t.created_at ≤ eod) &&
    (t.completed_at.isNone || (t.completed_at.map (fun c => decide (eod < c))).getD false)

/-- The filter closure of `get_cumulative_completed_time_series`:
completed at or before `eod`. -/
def Task.completedBy (t : Task) (eod : Int) : Bool :=
  match t.completed_at with
  | some c => decide (c ≤ eod)
  | none => false

/-- `TaskManager::get_completed_tasks_time_series`: for each of the last
`days` days (offset `day` back from `now`), count tasks completed within
`[start_of_day, end_of_day]`, keyed by `start_of_day`; then reverse into
chronological order. -/
def TaskManager.get_completed_tasks_time_series (tm : TaskManager) (days : Nat) (now : Int) :
    List (Int × Nat) :=
  ((List.range days).map (fun (day : Nat) =>
    let date := now - (day : Int) * nsPerDay
    (startOfDay date,
      tm.tasks.countP (fun p => p.2.completedWithin (startOfDay date) (endOfDay date))))).reverse

/-- `TaskManager::get_incomplete_tasks_time_series`: for each of the last
`days` days, count tasks created by `end_of_day` and not yet completed at
`end_of_day`, keyed by `end_of_day`; then reverse into chronological order. -/
def TaskManager.get_incomplete_tasks_time_series (tm : TaskManager) (days : Nat) (now : Int) :
    List (Int × Nat) :=
  ((List.range days).map (fun (day : Nat) =>
    let eod := endOfDay (now - (day : Int) * nsPerDay)
    (eod, tm.tasks.countP (fun p => p.2.openAt eod)))).reverse

/-- `TaskManager::get_cumulative_completed_time_series`: for each of the last
`days` days, count all tasks with `completed_at <= end_of_day`, keyed by
`end_of_day`; then reverse into chronological order. -/
def TaskManager.get_cumulative_completed_time_series (tm : TaskManager) (days : Nat) (now : Int) :
    List (Int × Nat) :=
  ((List.range days).map (fun (day : Nat) =>
    let eod := endOfDay (now - (day : Int) * nsPerDay)
    (eod, tm.tasks.countP (fun p => p.2.completedBy eod)))).reverse

/-- `TaskManager::predict_task_completion_times`: baseline is the historical
average (24 h fallback); each incomplete task is predicted at the baseline,
scaled by `1 + (age - avg) / avg * 0.5` when its age exceeds the baseline.
(The source also computes a `_completion_velocity` local that it never uses;
it has no effect on the result and is omitted.) -/
def TaskManager.predict_task_completion_times (tm : TaskManager) (now : Int) :
    List (Nat × ℚ) :=
  let avg_completion_time := (tm.get_average_completion_time_hours).getD 24
  tm.tasks.filterMap (fun p =>
    if p.2.completed then none
    else
      let hours_since_creation : ℚ := (numSecondsSince now p.2.created_at : ℚ) / 3600
      let age_factor : ℚ :=
        if avg_completion_time < hours_since_creation then
          1 + (hours_since_creation - avg_completion_time) / avg_completion_time * (1/2)
        else 1
      some (p.1, avg_completion_time * age_factor))

/-- The per-record invariant: `completed_at.is_some() == completed`. -/
def TaskInv (t : Task) : Prop :=
  t.completed_at.isSome = t.completed

/-- The store-wide invariant: every record satisfies `TaskInv`. -/
def StoreInv (tm : TaskManager) : Prop :=
  ∀ p ∈ tm.tasks, TaskInv p.2

/-- Every key currently in the mapping is strictly below `next_id`. -/
def keysBound (tm : TaskManager) : Prop :=
  ∀ p ∈ tm.tasks, p.1 < tm.next_id

/-- One mutating call against the store, with its clock argument. -/
inductive Op where
  | add : String → String → Int → Op
  | toggle : Nat → Int → Op
  | remove : Nat → Op

/-- Apply one mutating call (discarding its return value). -/
def applyOp (tm : TaskManager) : Op → TaskManager
  | Op.add t d n => (tm.add_task t d n).2
  | Op.toggle i n => (tm.toggle_task i n).2
  | Op.remove i => (tm.remove_task i).2

/-- Run a sequence of mutating calls. -/
def runOps : TaskManager → List Op → TaskManager
  | tm, [] => tm
  | tm, op :: rest => runOps (applyOp tm op) rest

/-- The ids returned by the `add` calls of a sequence, in call order. -/
def returnedIds : TaskManager → List Op → List Nat
  | _, [] => []
  | tm, Op.add t d n :: rest => (tm.add_task t d n).1 :: returnedIds (tm.add_task t d n).2 rest
  | tm, Op.toggle i n :: rest => returnedIds (tm.toggle_task i n).2 rest
  | tm, Op.remove i :: rest => returnedIds (tm.remove_task i).2 rest

/-- Number of `add` calls in a sequence. -/
def addCount : List Op → Nat
  | [] => 0
  | Op.add _ _ _ :: rest => addCount rest + 1
  | Op.toggle _ _ :: rest => addCount rest
  | Op.remove _ :: rest => addCount rest

/-- Completion latency of one record in hours (whole seconds over 3600), as the
average computes it for records with `completed_at` set. -/
def taskLatencyHours (t : Task) : ℚ :=
  (numSecondsSince (t.completed_at.getD 0) t.created_at : ℚ) / 3600

/-- The latencies, in hours, of the records with `completed_at` set. -/
def completionLatencies (tm : TaskManager) : List ℚ :=
  (tm.tasks.filter (fun p => p.2.completed_at.isSome)).map (fun p => taskLatencyHours p.2)

/-- Number of records with `completed_at` set. -/
def completedRecordCount (tm : TaskManager) : Nat :=
  tm.tasks.countP (fun p => p.2.completed_at.isSome)

/-- The prediction formula as the spec states it: when `age_hours > baseline`,
`baseline * (1 + 0.5 * (age_hours - baseline) / baseline)`, else `baseline`. -/
def predictedHoursSpec (baseline age_hours : ℚ) : ℚ :=
  if baseline < age_hours then baseline * (1 + (1/2) * (age_hours - baseline) / baseline)
  else baseline

/-- A store holding one completed task (created at 0, completed at second 0). -/
def tmDoneAt0 : TaskManager :=
  { tasks := [(1, { id := 1, title := "", description := "", completed := true,
                    created_at := 0, completed_at := some 0 })], next_id := 2 }

/-- A store holding one completed task with a one-hour completion latency. -/
def tmOneHour : TaskManager :=
  { tasks := [(1, { id := 1, title := "", description := "", completed := true,
                    created_at := 0, completed_at := some (3600 * nsPerSec) })], next_id := 2 }

/-- A store holding one completed task with a half-second completion latency. -/
def tmHalfSec : TaskManager :=
  { tasks := [(1, { id := 1, title := "", description := "", completed := true,
                    created_at := 0, completed_at := some 500000000 })], next_id := 2 }

/-- An empty store whose id counter differs from the fresh store's. -/
def tmEmpty42 : TaskManager :=
  { tasks := [], next_id := 42 }

/-- A small mutation script: add, remove the task just added, add again. -/
def opsW : List Op :=
  [Op.add "write spec" "draft it" 0, Op.remove 1, Op.add "review" "second pass" 3600]

/-!
## Theorems

Helper lemmas first, then one theorem per claim (with witnesses where the
claim theorem carries hypotheses).
-/

theorem TaskInv_new (id : Nat) (t d : String) (now : Int) :
    TaskInv (Task.new id t d now) := by
  simp [TaskInv, Task.new]

theorem TaskInv_toggle (t : Task) (now : Int) :
    TaskInv (t.toggle_completed now) := by
  cases h : t.completed <;> simp [TaskInv, Task.toggle_completed, h]

theorem mem_mapInsert {m : List (Nat × Task)} {k : Nat} {v : Task} {p : Nat × Task}
    (hp : p ∈ mapInsert m k v) : p = (k, v) ∨ p ∈ m := by
  unfold mapInsert at hp
  split at hp
  · rcases List.mem_map.mp hp with ⟨q, hq, rfl⟩
    by_cases h : q.1 = k
    · left; simp [h]
    · right; simpa [h] using hq
  · rcases List.mem_append.mp hp with h | h
    · right; exact h
    · left; simpa using h

theorem mapLookup_map_update (m : List (Nat × Task)) (id : Nat) (g : Task → Task) :
    mapLookup (m.map (fun p => if p.1 = id then (p.1, g p.2) else p)) id =
      (mapLookup m id).map g := by
  induction m with
  | nil => rfl
  | cons a l ih =>
    by_cases h : a.1 = id
    · simp [mapLookup, h]
    · simpa [mapLookup, h] using ih

theorem mapLookup_map_update_ne (m : List (Nat × Task)) (id j : Nat) (g : Task → Task)
    (h : j ≠ id) :
    mapLookup (m.map (fun p => if p.1 = id then (p.1, g p.2) else p)) j = mapLookup m j := by
  induction m with
  | nil => rfl
  | cons a l ih =>
    by_cases hk : a.1 = id
    · have h1 : a.1 ≠ j := by omega
      simpa [mapLookup, hk, h1, Ne.symm h] using ih
    · by_cases hj : a.1 = j
      · simp [mapLookup, hk, hj, h]
      · simpa [mapLookup, hk, hj] using ih

theorem mapLookup_filter_self (m : List (Nat × Task)) (id : Nat) :
    mapLookup (m.filter (fun p => !decide (p.1 = id))) id = none := by
  induction m with
  | nil => rfl
  | cons a l ih =>
    by_cases h : a.1 = id
    · simpa [List.filter_cons, h] using ih
    · simpa [mapLookup, List.filter_cons, h] using ih

theorem mapLookup_filter_ne (m : List (Nat × Task)) (id j : Nat) (h : j ≠ id) :
    mapLookup (m.filter (fun p => !decide (p.1 = id))) j = mapLookup m j := by
  induction m with
  | nil => rfl
  | cons a l ih =>
    by_cases hk : a.1 = id
    · have h1 : a.1 ≠ j := by omega
      simpa [mapLookup, List.filter_cons, hk, h1, Ne.symm h] using ih
    · by_cases hj : a.1 = j
      · simp [mapLookup, List.filter_cons, hk, hj, h]
      · simpa [mapLookup, List.filter_cons, hk, hj] using ih

theorem StoreInv_add (tm : TaskManager) (title descr : String) (now : Int)
    (h : StoreInv tm) : StoreInv (tm.add_task title descr now).2 := by
  intro p hp
  rcases mem_mapInsert hp with rfl | hmem
  · exact TaskInv_new _ _ _ _
  · exact h p hmem

theorem StoreInv_toggle (tm : TaskManager) (id : Nat) (now : Int)
    (h : StoreInv tm) : StoreInv (tm.toggle_task id now).2 := by
  unfold TaskManager.toggle_task
  cases hl : mapLookup tm.tasks id with
  | none => exact h
  | some t =>
    intro p hp
    rcases List.mem_map.mp hp with ⟨q, hq, rfl⟩
    by_cases hk : q.1 = id
    · simpa [hk] using TaskInv_toggle q.2 now
    · simpa [hk] using h q hq

theorem StoreInv_remove (tm : TaskManager) (id : Nat)
    (h : StoreInv tm) : StoreInv (tm.remove_task id).2 := by
  unfold TaskManager.remove_task
  split
  · intro p hp
    exact h p (List.mem_of_mem_filter hp)
  · exact h

/-- Claim C2: for every record in the store, `completed_at.is_some() == completed`
holds, and every mutation (`add`, `toggle`, `remove`) preserves this invariant
for all records; consequently it holds in every store reachable from a fresh
one by any sequence of mutations. -/
theorem mutations_preserve_completed_invariant :
    StoreInv TaskManager.new ∧
    (∀ tm title descr now, StoreInv tm → StoreInv (tm.add_task title descr now).2) ∧
    (∀ tm id now, StoreInv tm → StoreInv (tm.toggle_task id now).2) ∧
    (∀ tm id, StoreInv tm → StoreInv (tm.remove_task id).2) ∧
    (∀ ops, StoreInv (runOps TaskManager.new ops)) := by
  have hnew : StoreInv TaskManager.new := by intro p hp; simp [TaskManager.new] at hp
  have hrun : ∀ ops tm, StoreInv tm → StoreInv (runOps tm ops) := by
    intro ops
    induction ops with
    | nil => intro tm h; exact h
    | cons op rest ih =>
      intro tm h
      cases op with
      | add t d n => exact ih _ (StoreInv_add tm t d n h)
      | toggle i n => exact ih _ (StoreInv_toggle tm i n h)
      | remove i => exact ih _ (StoreInv_remove tm i h)
  exact ⟨hnew, StoreInv_add, StoreInv_toggle, StoreInv_remove,
    fun ops => hrun ops TaskManager.new hnew⟩

/-- Witness for C2: the invariant transported through a concrete add and toggle
on a fresh store. -/
theorem mutations_preserve_completed_invariant_witness :
    StoreInv (((TaskManager.new.add_task "a" "b" 0).2.toggle_task 1 5).2) :=
  mutations_preserve_completed_invariant.2.2.1 _ 1 5
    (mutations_preserve_completed_invariant.2.1 TaskManager.new "a" "b" 0
      mutations_preserve_completed_invariant.1)

/-- Claim C8: `toggle` and `remove` on an absent id return `false` and leave the
store entirely unchanged; on a present id both return `true`, and `remove`
deletes exactly the entries keyed by that id, leaving every other id's record
and the counter untouched. -/
theorem absent_id_noop_present_id_removed (tm : TaskManager) (id : Nat) (now : Int) :
    (tm.get_task id = none →
      tm.toggle_task id now = (false, tm) ∧ tm.remove_task id = (false, tm)) ∧
    (∀ t, tm.get_task id = some t →
      (tm.toggle_task id now).1 = true ∧
      (tm.remove_task id).1 = true ∧
      (tm.remove_task id).2.next_id = tm.next_id ∧
      (tm.remove_task id).2.tasks = tm.tasks.filter (fun p => decide (p.1 ≠ id)) ∧
      (tm.remove_task id).2.get_task id = none ∧
      (∀ j, j ≠ id → (tm.remove_task id).2.get_task j = tm.get_task j)) := by
  constructor
  · intro hnone
    unfold TaskManager.get_task at hnone
    constructor
    · simp [TaskManager.toggle_task, hnone]
    · simp [TaskManager.remove_task, hnone]
  · intro t hsome
    unfold TaskManager.get_task at hsome
    have hs : (mapLookup tm.tasks id).isSome := by simp [hsome]
    refine ⟨?_, ?_, ?_, ?_, ?_, ?_⟩
    · simp [TaskManager.toggle_task, hsome]
    · simp [TaskManager.remove_task, hs]
    · simp [TaskManager.remove_task, hs]
    · simp [TaskManager.remove_task, hs]
    · simp only [TaskManager.remove_task, TaskManager.get_task, hs, if_true]
      simpa using mapLookup_filter_self tm.tasks id
    · intro j hj
      simp only [TaskManager.remove_task, TaskManager.get_task, hs, if_true]
      simpa using mapLookup_filter_ne tm.tasks id j hj

/-- Witness for C8: on a fresh store, toggling and removing the absent id 5 are
no-ops returning `false`; on a store holding task 1, removing id 1 succeeds and
empties the map. -/
theorem absent_id_noop_present_id_removed_witness :
    (TaskManager.new.toggle_task 5 0 = (false, TaskManager.new) ∧
      TaskManager.new.remove_task 5 = (false, TaskManager.new)) ∧
    ((tmOneHour.remove_task 1).1 = true ∧ (tmOneHour.remove_task 1).2.get_task 1 = none) := by
  constructor
  · exact (absent_id_noop_present_id_removed TaskManager.new 5 0).1 rfl
  · have h := (absent_id_noop_present_id_removed tmOneHour 1 0).2
      (Task.mk 1 "" "" true 0 (some (3600 * nsPerSec))) rfl
    exact ⟨h.2.1, h.2.2.2.2.1⟩

/-- Claim C9: every analytics query is deterministic and depends only on the
record contents of the store (not on the id counter or any hidden state): on
stores with equal `tasks` and with the same reference `now`, all five queries
return equal results. (Non-mutation holds by construction: the queries are
total functions that take the store by value and return only their result,
mirroring the `&self` receivers in the source.) -/
theorem analytics_pure_deterministic (tm tm' : TaskManager) (days : Nat) (now : Int)
    (h : tm.tasks = tm'.tasks) :
    tm.get_average_completion_time_hours = tm'.get_average_completion_time_hours ∧
    tm.get_completed_tasks_time_series days now = tm'.get_completed_tasks_time_series days now ∧
    tm.get_incomplete_tasks_time_series days now = tm'.get_incomplete_tasks_time_series days now ∧
    tm.get_cumulative_completed_time_series days now
      = tm'.get_cumulative_completed_time_series days now ∧
    tm.predict_task_completion_times now = tm'.predict_task_completion_times now := by
  simp only [TaskManager.get_average_completion_time_hours,
    TaskManager.get_completed_tasks_time_series,
    TaskManager.get_incomplete_tasks_time_series,
    TaskManager.get_cumulative_completed_time_series,
    TaskManager.predict_task_completion_times, h]
  simp

/-- Witness for C9: two empty stores that differ in their id counters give
identical analytics results. -/
theorem analytics_pure_deterministic_witness :
    TaskManager.new.get_average_completion_time_hours
      = tmEmpty42.get_average_completion_time_hours ∧
    TaskManager.new.get_completed_tasks_time_series 1 0
      = tmEmpty42.get_completed_tasks_time_series 1 0 ∧
    TaskManager.new.get_incomplete_tasks_time_series 1 0
      = tmEmpty42.get_incomplete_tasks_time_series 1 0 ∧
    TaskManager.new.get_cumulative_completed_time_series 1 0
      = tmEmpty42.get_cumulative_completed_time_series 1 0 ∧
    TaskManager.new.predict_task_completion_times 0
      = tmEmpty42.predict_task_completion_times 0 :=
  analytics_pure_deterministic TaskManager.new tmEmpty42 1 0 rfl

theorem Task.toggle_toggle (t : Task) (hinv : TaskInv t) (n1 n2 : Int) :
    (t.toggle_completed n1).toggle_completed n2
      = if t.completed then { t with completed_at := some n2 } else t := by
  cases t with
  | mk id title descr comp cat compat =>
    cases comp
    · cases compat
      · simp [Task.toggle_completed]
      · simp [TaskInv] at hinv
    · simp [Task.toggle_completed]

theorem toggled_tasks_eq (tm : TaskManager) (id : Nat) (now : Int) (t : Task)
    (h : mapLookup tm.tasks id = some t) :
    (tm.toggle_task id now).2.tasks
      = tm.tasks.map (fun p => if p.1 = id then (p.1, p.2.toggle_completed now) else p) := by
  simp [TaskManager.toggle_task, h]

/-- Counterexample to claim C1 as stated: in a store whose single record was
completed at instant 0, toggling it twice at the later instants 1 and 2 (a
monotone clock) returns the record with `completed_at = some 2`, not its
original `some 0`: the second toggle stamps a fresh completion time. -/
theorem toggle_twice_changes_completed_at_cx :
    tmDoneAt0.get_task 1 = some (Task.mk 1 "" "" true 0 (some 0)) ∧
    ((0 : Int) ≤ 1 ∧ (1 : Int) ≤ 2) ∧
    ((tmDoneAt0.toggle_task 1 1).2.toggle_task 1 2).2.get_task 1
      = some (Task.mk 1 "" "" true 0 (some 2)) ∧
    some (Task.mk 1 "" "" true 0 (some 2)) ≠ some (Task.mk 1 "" "" true 0 (some 0)) := by
  decide

/-- Claim C1 (amended): toggling a present id twice always restores the
`completed` flag; it also restores `completed_at` whenever the record was
incomplete before the first call, while a record that was already complete
ends with `completed_at` stamped at the second call's clock instant. -/
theorem toggle_twice_restores (tm : TaskManager) (id : Nat) (t : Task) (n1 n2 : Int)
    (hget : tm.get_task id = some t) (hinv : TaskInv t) :
    (((tm.toggle_task id n1).2.toggle_task id n2).2.get_task id).map Task.completed
      = some t.completed ∧
    (t.completed = false →
      ((tm.toggle_task id n1).2.toggle_task id n2).2.get_task id = some t) ∧
    (t.completed = true →
      ((tm.toggle_task id n1).2.toggle_task id n2).2.get_task id
        = some { t with completed_at := some n2 }) := by
  have hL : mapLookup tm.tasks id = some t := hget
  have h1tasks := toggled_tasks_eq tm id n1 t hL
  have h1look : mapLookup (tm.toggle_task id n1).2.tasks id = some (t.toggle_completed n1) := by
    rw [h1tasks, mapLookup_map_update tm.tasks id (fun s => s.toggle_completed n1), hL]; rfl
  have h2tasks := toggled_tasks_eq (tm.toggle_task id n1).2 id n2 (t.toggle_completed n1) h1look
  have h2look : mapLookup ((tm.toggle_task id n1).2.toggle_task id n2).2.tasks id
      = some ((t.toggle_completed n1).toggle_completed n2) := by
    rw [h2tasks,
      mapLookup_map_update (tm.toggle_task id n1).2.tasks id (fun s => s.toggle_completed n2),
      h1look]
    rfl
  have hfin : ((tm.toggle_task id n1).2.toggle_task id n2).2.get_task id
      = some (if t.completed then { t with completed_at := some n2 } else t) := by
    unfold TaskManager.get_task
    rw [h2look, Task.toggle_toggle t hinv]
  refine ⟨?_, ?_, ?_⟩
  · rw [hfin]; cases hc : t.completed <;> simp [hc]
  · intro h; rw [hfin, h]; simp
  · intro h; rw [hfin, h]; simp

/-- Witness for the amended C1 at a concrete completed record: toggles at
instants 7 and 9 keep `completed = true` and stamp `completed_at = some 9`. -/
theorem toggle_twice_restores_witness :
    ((((tmOneHour.toggle_task 1 7).2.toggle_task 1 9).2.get_task 1).map Task.completed
      = some (Task.mk 1 "" "" true 0 (some (3600 * nsPerSec))).completed) ∧
    ((Task.mk 1 "" "" true 0 (some (3600 * nsPerSec))).completed = false →
      ((tmOneHour.toggle_task 1 7).2.toggle_task 1 9).2.get_task 1
        = some (Task.mk 1 "" "" true 0 (some (3600 * nsPerSec)))) ∧
    ((Task.mk 1 "" "" true 0 (some (3600 * nsPerSec))).completed = true →
      ((tmOneHour.toggle_task 1 7).2.toggle_task 1 9).2.get_task 1
        = some { Task.mk 1 "" "" true 0 (some (3600 * nsPerSec)) with
                   completed_at := some 9 }) :=
  toggle_twice_restores tmOneHour 1 (Task.mk 1 "" "" true 0 (some (3600 * nsPerSec))) 7 9
    rfl rfl

theorem filterMap_latencies (l : List (Nat × Task)) :
    l.filterMap (fun p =>
        p.2.completed_at.map (fun c => ((numSecondsSince c p.2.created_at : ℚ)) / 3600))
      = (l.filter (fun p => p.2.completed_at.isSome)).map (fun p => taskLatencyHours p.2) := by
  induction l with
  | nil => rfl
  | cons a l ih =>
    cases hc : a.2.completed_at with
    | none => simpa [List.filterMap_cons, List.filter_cons, hc] using ih
    | some c => simp [List.filterMap_cons, List.filter_cons, hc, taskLatencyHours, ih]

theorem avg_eq (tm : TaskManager) :
    tm.get_average_completion_time_hours
      = if (completionLatencies tm).isEmpty then none
        else some ((completionLatencies tm).sum / ((completionLatencies tm).length : ℚ)) := by
  simp only [TaskManager.get_average_completion_time_hours, completionLatencies,
    filterMap_latencies tm.tasks]

theorem completionLatencies_length (tm : TaskManager) :
    (completionLatencies tm).length = completedRecordCount tm := by
  simp [completionLatencies, completedRecordCount, List.countP_eq_length_filter]

/-- Claim C4: the average completion time is `none` exactly when no record has
`completed_at` set; otherwise it is the arithmetic mean — sum divided by
count — of the completed records' latencies in hours. -/
theorem average_none_iff_no_completed (tm : TaskManager) :
    (tm.get_average_completion_time_hours = none ↔ completedRecordCount tm = 0) ∧
    (∀ q, tm.get_average_completion_time_hours = some q →
      q = (completionLatencies tm).sum / (completedRecordCount tm : ℚ)) := by
  have hlen := completionLatencies_length tm
  constructor
  · rw [avg_eq tm]
    by_cases he : (completionLatencies tm).isEmpty
    · have hlen0 : completedRecordCount tm = 0 := by
        rw [← hlen]; exact List.isEmpty_iff_length_eq_zero.mp he
      simp [he, hlen0]
    · have hlen0 : completedRecordCount tm ≠ 0 := by
        rw [← hlen]
        intro h0
        exact he (List.isEmpty_iff_length_eq_zero.mpr h0)
      simp [he, hlen0]
  · intro q hq
    rw [avg_eq tm] at hq
    by_cases he : (completionLatencies tm).isEmpty
    · simp [he] at hq
    · rw [if_neg he] at hq
      rw [← hlen]
      exact (Option.some_injective _ hq).symm

/-- Witness for C4: a store with one completed record of one-hour latency has
average `some 1`, and `1` is indeed the sum of latencies over the count. -/
theorem average_none_iff_no_completed_witness :
    (tmOneHour.get_average_completion_time_hours = none ↔ completedRecordCount tmOneHour = 0) ∧
    (1 : ℚ) = (completionLatencies tmOneHour).sum / (completedRecordCount tmOneHour : ℚ) :=
  ⟨(average_none_iff_no_completed tmOneHour).1,
    (average_none_iff_no_completed tmOneHour).2 1 (by
      rw [avg_eq tmOneHour]
      norm_num [completionLatencies, tmOneHour, taskLatencyHours, numSecondsSince, nsPerSec,
        show Int.tdiv 3600000000000 1000000000 = 3600 from by decide])⟩

/-- Claim C10: `num_seconds` truncation makes any record completed strictly
less than one second after creation contribute exactly zero hours, and a store
whose completed records all have sub-second latency (at least one existing)
averages to `some 0`, not `none`. -/
theorem subsecond_latency_zero_hours :
    (∀ created completed : Int, created ≤ completed → completed - created < nsPerSec →
      numSecondsSince completed created = 0) ∧
    (∀ tm : TaskManager,
      (∀ p ∈ tm.tasks, ∀ c, p.2.completed_at = some c →
        p.2.created_at ≤ c ∧ c - p.2.created_at < nsPerSec) →
      completedRecordCount tm ≠ 0 →
      tm.get_average_completion_time_hours = some 0) := by
  have part1 : ∀ created completed : Int, created ≤ completed →
      completed - created < nsPerSec → numSecondsSince completed created = 0 := by
    intro r c h1 h2
    unfold numSecondsSince
    exact Int.tdiv_eq_zero_of_lt (by omega) (by omega)
  refine ⟨part1, ?_⟩
  intro tm hsub hne
  have hzero : ∀ x ∈ completionLatencies tm, x = 0 := by
    intro x hx
    rcases List.mem_map.mp hx with ⟨p, hp, rfl⟩
    have hpmem := List.mem_of_mem_filter hp
    have hps : p.2.completed_at.isSome := by
      simpa using List.of_mem_filter hp
    rcases Option.isSome_iff_exists.mp hps with ⟨c, hc⟩
    rcases hsub p hpmem c hc with ⟨hle, hlt⟩
    unfold taskLatencyHours
    rw [hc]
    simp [part1 p.2.created_at c hle hlt]
  have hlen := completionLatencies_length tm
  rw [avg_eq tm]
  have he : ¬ (completionLatencies tm).isEmpty := by
    intro hEmpty
    apply hne
    rw [← hlen]
    exact List.isEmpty_iff_length_eq_zero.mp hEmpty
  rw [if_neg he, List.sum_eq_zero hzero, zero_div]

/-- Witness for C10: the store whose only record completed half a second after
creation averages `some 0`. -/
theorem subsecond_latency_zero_hours_witness :
    tmHalfSec.get_average_completion_time_hours = some 0 := by
  refine subsecond_latency_zero_hours.2 tmHalfSec ?_ (by decide)
  intro p hp c hc
  simp only [tmHalfSec] at hp
  rcases List.mem_singleton.mp hp with rfl
  simp only [Option.some.injEq] at hc
  subst hc
  constructor <;> simp [nsPerSec]

theorem endOfDay_mono {a b : Int} (h : a ≤ b) : endOfDay a ≤ endOfDay b := by
  unfold endOfDay startOfDay
  have hD : (0 : Int) < nsPerDay := by norm_num [nsPerDay, nsPerSec]
  have h1 := Int.ediv_le_ediv hD h
  have h2 := mul_le_mul_of_nonneg_right h1 (le_of_lt hD)
  omega

theorem Task.completedBy_mono (t : Task) {e1 e2 : Int} (h : e1 ≤ e2)
    (hc : t.completedBy e1 = true) : t.completedBy e2 = true := by
  cases t with
  | mk id title descr comp cat compat =>
    cases compat with
    | none => exact absurd hc (by simp [Task.completedBy])
    | some c =>
      have hc' : c ≤ e1 := by simpa [Task.completedBy] using hc
      simp only [Task.completedBy, decide_eq_true_eq]
      omega

/-- Claim C7: the cumulative completed-tasks series is monotonically
non-decreasing across consecutive buckets in the emitted chronological order,
for any store state, day count and reference clock. -/
theorem cumulative_series_monotone (tm : TaskManager) (days : Nat) (now : Int) :
    (tm.get_cumulative_completed_time_series days now).Chain' (fun a b => a.2 ≤ b.2) := by
  unfold TaskManager.get_cumulative_completed_time_series
  apply List.Pairwise.chain'
  rw [List.pairwise_reverse, List.pairwise_map]
  apply List.Pairwise.imp ?_ (List.pairwise_lt_range days)
  intro d1 d2 hlt
  show tm.tasks.countP (fun p => p.2.completedBy (endOfDay (now - (d2 : Int) * nsPerDay)))
      ≤ tm.tasks.countP (fun p => p.2.completedBy (endOfDay (now - (d1 : Int) * nsPerDay)))
  apply List.countP_mono_left
  intro p _ hc
  have hmul : (d1 : Int) * nsPerDay ≤ (d2 : Int) * nsPerDay := by
    apply mul_le_mul_of_nonneg_right
    · exact_mod_cast le_of_lt hlt
    · norm_num [nsPerDay, nsPerSec]
  exact Task.completedBy_mono p.2 (endOfDay_mono (by omega)) hc

/-- Claim C6: the open-per-day series has one bucket per requested day; in the
emitted chronological order, bucket `i` is anchored at the `end_of_day` of the
day `days - 1 - i` steps before the reference clock and counts exactly the
records created by that instant and not completed by it. -/
theorem incomplete_series_bucket_spec (tm : TaskManager) (days : Nat) (now : Int) (i : Nat)
    (hi : i < days) :
    (tm.get_incomplete_tasks_time_series days now).length = days ∧
    (tm.get_incomplete_tasks_time_series days now)[i]?
      = some (endOfDay (now - ((days - 1 - i : Nat) : Int) * nsPerDay),
          tm.tasks.countP (fun p =>
            p.2.openAt (endOfDay (now - ((days - 1 - i : Nat) : Int) * nsPerDay)))) := by
  constructor
  · simp [TaskManager.get_incomplete_tasks_time_series]
  · unfold TaskManager.get_incomplete_tasks_time_series
    rw [List.getElem?_reverse (by simpa using hi)]
    rw [List.length_map, List.length_range]
    rw [List.getElem?_map, List.getElem?_range (by omega)]
    rfl

/-- Witness for C6 on a concrete store: two requested days ending one day after
the epoch; the oldest bucket (index 0) is the end of the epoch day and counts
zero open tasks, because the single task was completed within that day. -/
theorem incomplete_series_bucket_spec_witness :
    (tmOneHour.get_incomplete_tasks_time_series 2 nsPerDay).length = 2 ∧
    (tmOneHour.get_incomplete_tasks_time_series 2 nsPerDay)[0]?
      = some (endOfDay (nsPerDay - ((2 - 1 - 0 : Nat) : Int) * nsPerDay),
          tmOneHour.tasks.countP (fun p =>
            p.2.openAt (endOfDay (nsPerDay - ((2 - 1 - 0 : Nat) : Int) * nsPerDay)))) :=
  incomplete_series_bucket_spec tmOneHour 2 nsPerDay 0 (by omega)

theorem predict_filterMap (l : List (Nat × Task)) (a : ℚ) (now : Int) :
    (l.filterMap (fun p =>
      if p.2.completed then none
      else
        some (p.1, a * (if a < (numSecondsSince now p.2.created_at : ℚ) / 3600 then
          1 + ((numSecondsSince now p.2.created_at : ℚ) / 3600 - a) / a * (1/2)
        else 1))))
    = (l.filter (fun p => !p.2.completed)).map (fun p =>
        (p.1, predictedHoursSpec a ((numSecondsSince now p.2.created_at : ℚ) / 3600))) := by
  induction l with
  | nil => rfl
  | cons q l ih =>
    cases hq : q.2.completed
    · simp only [List.filterMap_cons, List.filter_cons, hq, Bool.false_eq_true, if_false,
        Bool.not_false, if_pos trivial, List.map_cons]
      rw [ih]
      congr 1
      unfold predictedHoursSpec
      by_cases hlt : a < (numSecondsSince now q.2.created_at : ℚ) / 3600
      · rw [if_pos hlt, if_pos hlt]; ring_nf
      · rw [if_neg hlt, if_neg hlt]; ring_nf
    · simp only [List.filterMap_cons, List.filter_cons, hq, if_true, Bool.not_true,
        Bool.false_eq_true, if_false]
      exact ih

/-- Claim C5: `predict_task_completion_times` returns exactly one pair per
incomplete record (none for completed ones), pairing each open record's id
with the spec's formula: the baseline (historical average, 24 h fallback)
scaled by `1 + 0.5 * (age_hours - baseline) / baseline` exactly when
`age_hours > baseline`. -/
theorem predict_covers_open_tasks (tm : TaskManager) (now : Int) :
    tm.predict_task_completion_times now
      = (tm.tasks.filter (fun p => !p.2.completed)).map (fun p =>
          (p.1, predictedHoursSpec ((tm.get_average_completion_time_hours).getD 24)
              ((numSecondsSince now p.2.created_at : ℚ) / 3600))) := by
  unfold TaskManager.predict_task_completion_times
  exact predict_filterMap tm.tasks ((tm.get_average_completion_time_hours).getD 24) now

theorem toggle_next_id (tm : TaskManager) (id : Nat) (n : Int) :
    (tm.toggle_task id n).2.next_id = tm.next_id := by
  unfold TaskManager.toggle_task
  cases hL : mapLookup tm.tasks id <;> rfl

theorem remove_next_id (tm : TaskManager) (id : Nat) :
    (tm.remove_task id).2.next_id = tm.next_id := by
  unfold TaskManager.remove_task
  by_cases hs : (mapLookup tm.tasks id).isSome
  · rw [if_pos hs]
  · rw [if_neg hs]

theorem run_next_id_and_ids (ops : List Op) : ∀ tm : TaskManager,
    tm.next_id + addCount ops < U32 →
    (runOps tm ops).next_id = tm.next_id + addCount ops ∧
    returnedIds tm ops = (List.range (addCount ops)).map (fun j => tm.next_id + j) := by
  induction ops with
  | nil =>
    intro tm h
    exact ⟨by simp [runOps, addCount], by simp [returnedIds, addCount]⟩
  | cons op rest ih =>
    intro tm h
    cases op with
    | add t d n =>
      have hAC : addCount (Op.add t d n :: rest) = addCount rest + 1 := rfl
      rw [hAC] at h
      have hinc : (tm.next_id + 1) % U32 = tm.next_id + 1 := Nat.mod_eq_of_lt (by omega)
      have hn : (tm.add_task t d n).2.next_id = tm.next_id + 1 := by
        simp [TaskManager.add_task, hinc]
      obtain ⟨ih1, ih2⟩ := ih (tm.add_task t d n).2 (by rw [hn]; omega)
      constructor
      · show (runOps (tm.add_task t d n).2 rest).next_id = _
        rw [ih1, hn, hAC]
        omega
      · show (tm.add_task t d n).1 :: returnedIds (tm.add_task t d n).2 rest = _
        rw [ih2, hn, hAC]
        have hid : (tm.add_task t d n).1 = tm.next_id := rfl
        rw [hid, List.range_succ_eq_map, List.map_cons, List.map_map]
        congr 1
        apply List.map_congr_left
        intro j _
        show tm.next_id + 1 + j = tm.next_id + (j + 1)
        omega
    | toggle i nn =>
      have hAC : addCount (Op.toggle i nn :: rest) = addCount rest := rfl
      rw [hAC] at h
      have hn := toggle_next_id tm i nn
      obtain ⟨ih1, ih2⟩ := ih (tm.toggle_task i nn).2 (by rw [hn]; omega)
      constructor
      · show (runOps (tm.toggle_task i nn).2 rest).next_id = _
        rw [ih1, hn, hAC]
      · show returnedIds (tm.toggle_task i nn).2 rest = _
        rw [ih2, hn, hAC]
    | remove i =>
      have hAC : addCount (Op.remove i :: rest) = addCount rest := rfl
      rw [hAC] at h
      have hn := remove_next_id tm i
      obtain ⟨ih1, ih2⟩ := ih (tm.remove_task i).2 (by rw [hn]; omega)
      constructor
      · show (runOps (tm.remove_task i).2 rest).next_id = _
        rw [ih1, hn, hAC]
      · show returnedIds (tm.remove_task i).2 rest = _
        rw [ih2, hn, hAC]

theorem keysBound_add (tm : TaskManager) (t d : String) (n : Int)
    (hkb : keysBound tm) (hlt : tm.next_id + 1 < U32) :
    keysBound (tm.add_task t d n).2 := by
  intro p hp
  have hn : (tm.add_task t d n).2.next_id = tm.next_id + 1 := by
    simp [TaskManager.add_task, Nat.mod_eq_of_lt hlt]
  have htasks : (tm.add_task t d n).2.tasks
      = mapInsert tm.tasks tm.next_id (Task.new tm.next_id t d n) := rfl
  rw [htasks] at hp
  rcases mem_mapInsert hp with rfl | hmem
  · rw [hn]; omega
  · have := hkb p hmem
    rw [hn]; omega

theorem keysBound_toggle (tm : TaskManager) (i : Nat) (n : Int)
    (hkb : keysBound tm) : keysBound (tm.toggle_task i n).2 := by
  intro p hp
  rw [toggle_next_id]
  unfold TaskManager.toggle_task at hp
  cases hL : mapLookup tm.tasks i with
  | none => rw [hL] at hp; exact hkb p hp
  | some t0 =>
    rw [hL] at hp
    rcases List.mem_map.mp hp with ⟨q, hq, rfl⟩
    by_cases hqi : q.1 = i
    · simpa [hqi] using hkb q hq
    · simpa [hqi] using hkb q hq

theorem keysBound_remove (tm : TaskManager) (i : Nat)
    (hkb : keysBound tm) : keysBound (tm.remove_task i).2 := by
  intro p hp
  rw [remove_next_id]
  unfold TaskManager.remove_task at hp
  by_cases hs : (mapLookup tm.tasks i).isSome
  · rw [if_pos hs] at hp
    exact hkb p (List.mem_of_mem_filter hp)
  · rw [if_neg hs] at hp
    exact hkb p hp

theorem keysBound_run (ops : List Op) : ∀ tm : TaskManager, keysBound tm →
    tm.next_id + addCount ops < U32 → keysBound (runOps tm ops) := by
  induction ops with
  | nil => intro tm h _; exact h
  | cons op rest ih =>
    intro tm hkb h
    cases op with
    | add t d n =>
      have hAC : addCount (Op.add t d n :: rest) = addCount rest + 1 := rfl
      rw [hAC] at h
      have hn : (tm.add_task t d n).2.next_id = tm.next_id + 1 := by
        simp [TaskManager.add_task, Nat.mod_eq_of_lt (show tm.next_id + 1 < U32 by omega)]
      exact ih (tm.add_task t d n).2 (keysBound_add tm t d n hkb (by omega)) (by rw [hn]; omega)
    | toggle i n =>
      have hAC : addCount (Op.toggle i n :: rest) = addCount rest := rfl
      rw [hAC] at h
      have hn := toggle_next_id tm i n
      exact ih (tm.toggle_task i n).2 (keysBound_toggle tm i n hkb) (by rw [hn]; omega)
    | remove i =>
      have hAC : addCount (Op.remove i :: rest) = addCount rest := rfl
      rw [hAC] at h
      have hn := remove_next_id tm i
      exact ih (tm.remove_task i).2 (keysBound_remove tm i hkb) (by rw [hn]; omega)

/-- Claim C3 (amended): along any sequence of `add`/`toggle`/`remove` calls
from a fresh store that performs fewer than `2^32 - 1` adds (so the `u32`
counter never wraps), the ids returned by the adds are strictly increasing —
hence never repeated, even across removes — and `next_id` stays strictly
greater than every id returned so far and every id currently in the mapping. -/
theorem add_ids_strictly_increasing (ops : List Op) (h : 1 + addCount ops < U32) :
    (returnedIds TaskManager.new ops).Pairwise (· < ·) ∧
    (∀ i ∈ returnedIds TaskManager.new ops, i < (runOps TaskManager.new ops).next_id) ∧
    (∀ p ∈ (runOps TaskManager.new ops).tasks, p.1 < (runOps TaskManager.new ops).next_id) := by
  have h1 : TaskManager.new.next_id = 1 := rfl
  obtain ⟨hnid, hids⟩ := run_next_id_and_ids ops TaskManager.new (by rw [h1]; omega)
  rw [h1] at hnid hids
  refine ⟨?_, ?_, ?_⟩
  · rw [hids]
    exact List.Pairwise.map _ (fun a b hab => by omega) (List.pairwise_lt_range _)
  · intro i hi
    rw [hids] at hi
    rcases List.mem_map.mp hi with ⟨j, hj, rfl⟩
    have hjr := List.mem_range.mp hj
    rw [hnid]
    omega
  · intro p hp
    exact keysBound_run ops TaskManager.new
      (by intro q hq; simp [TaskManager.new] at hq) (by rw [h1]; omega) p hp

/-- Witness for the amended C3: the script add/remove/add returns strictly
increasing ids, all below the final counter, as are the keys still present. -/
theorem add_ids_strictly_increasing_witness :
    (returnedIds TaskManager.new opsW).Pairwise (· < ·) ∧
    (∀ i ∈ returnedIds TaskManager.new opsW, i < (runOps TaskManager.new opsW).next_id) ∧
    (∀ p ∈ (runOps TaskManager.new opsW).tasks, p.1 < (runOps TaskManager.new opsW).next_id) :=
  add_ids_strictly_increasing opsW (by decide)

theorem replicate_add_ids (k : Nat) : ∀ tm : TaskManager, tm.next_id < U32 →
    returnedIds tm (List.replicate k (Op.add "" "" 0))
      = (List.range k).map (fun j => (tm.next_id + j) % U32) := by
  induction k with
  | zero => intro tm _; rfl
  | succ k ih =>
    intro tm h
    rw [List.replicate_succ]
    show (tm.add_task "" "" 0).1
        :: returnedIds (tm.add_task "" "" 0).2 (List.replicate k (Op.add "" "" 0)) = _
    have hn : (tm.add_task "" "" 0).2.next_id = (tm.next_id + 1) % U32 := rfl
    have hid : (tm.add_task "" "" 0).1 = tm.next_id := rfl
    have hlt : (tm.add_task "" "" 0).2.next_id < U32 := by
      rw [hn]; exact Nat.mod_lt _ (by norm_num [U32])
    rw [ih _ hlt, hid, hn]
    rw [List.range_succ_eq_map, List.map_cons, List.map_map]
    congr 1
    · rw [Nat.add_zero, Nat.mod_eq_of_lt h]
    · apply List.map_congr_left
      intro j _
      show ((tm.next_id + 1) % U32 + j) % U32 = (tm.next_id + (j + 1)) % U32
      rw [Nat.mod_add_mod]
      congr 1
      omega

/-- Counterexample to claim C3 as stated: after `2^32` successive adds from a
fresh store the `u32` counter has wrapped; the second-to-last returned id is
`2^32 - 1` but the last is `0`, so the returned ids are not strictly
increasing (and `0 < 2^32 - 1` means the counter no longer dominates them). -/
theorem add_ids_wrap_around_cx :
    (returnedIds TaskManager.new (List.replicate U32 (Op.add "" "" 0)))[U32 - 2]?
      = some (U32 - 1) ∧
    (returnedIds TaskManager.new (List.replicate U32 (Op.add "" "" 0)))[U32 - 1]?
      = some 0 ∧
    ¬ (returnedIds TaskManager.new (List.replicate U32 (Op.add "" "" 0))).Pairwise (· < ·) := by
  have hU : U32 = 4294967296 := rfl
  have h1 : TaskManager.new.next_id = 1 := rfl
  have hids := replicate_add_ids U32 TaskManager.new (by rw [h1, hU]; omega)
  rw [h1] at hids
  have hlen : (returnedIds TaskManager.new (List.replicate U32 (Op.add "" "" 0))).length
      = U32 := by
    rw [hids, List.length_map, List.length_range]
  have e1 : (returnedIds TaskManager.new (List.replicate U32 (Op.add "" "" 0)))[U32 - 2]?
      = some (U32 - 1) := by
    rw [hids, List.getElem?_map, List.getElem?_range (by omega)]
    rfl
  have e2 : (returnedIds TaskManager.new (List.replicate U32 (Op.add "" "" 0)))[U32 - 1]?
      = some 0 := by
    rw [hids, List.getElem?_map, List.getElem?_range (by omega)]
    rfl
  refine ⟨e1, e2, ?_⟩
  intro hpw
  have hb2 : U32 - 2
      < (returnedIds TaskManager.new (List.replicate U32 (Op.add "" "" 0))).length := by
    omega
  have hb1 : U32 - 1
      < (returnedIds TaskManager.new (List.replicate U32 (Op.add "" "" 0))).length := by
    omega
  have hget := List.pairwise_iff_getElem.mp hpw (U32 - 2) (U32 - 1) hb2 hb1 (by omega)
  have v1 := List.getElem?_eq_getElem hb2
  rw [e1] at v1
  have v2 := List.getElem?_eq_getElem hb1
  rw [e2] at v2
  have w1 := Option.some.inj v1
  have w2 := Option.some.inj v2
  rw [← w1, ← w2] at hget
  omega

end TaskRs
